import Mathlib

/-!
Shallow embedding of the TechTorch document formatter's content
classification pipeline (src/app.py) and proofs about the frozen claims.

Texts are Lean `String`s (a `String` is a structure over `List Char`, so
all operations below are executable and kernel-reducible).  Python's
`str.strip`, `str.lower`, `str.upper`, substring membership (`in`) and the
concrete regular expressions used by the source are hand-embedded on
character lists.
-/

namespace TechTorch

/-- ASCII whitespace, the common core of Python's `str.strip` set and the
regex class used by the source's patterns. -/
def isPySpace (c : Char) : Bool :=
  c = ' ' || c = '\t' || c = '\n' || c = '\r' || c = '\x0b' || c = '\x0c'

/-- Python `str.strip()` (ASCII whitespace). -/
def pyStrip (s : String) : String :=
  String.mk (((s.toList.dropWhile isPySpace).reverse.dropWhile isPySpace).reverse)

/-- Python `str.lower()` on ASCII letters. -/
def lowerStr (s : String) : String :=
  String.mk (s.toList.map Char.toLower)

/-- Python `str.upper()` on ASCII letters. -/
def upperStr (s : String) : String :=
  String.mk (s.toList.map Char.toUpper)

/-- `p` is a leading segment of `s` (Python `str.startswith`). -/
def leadsWith : List Char → List Char → Bool
  | [], _ => true
  | _ :: _, [] => false
  | a :: as, b :: bs => a = b && leadsWith as bs

/-- `n` occurs as a contiguous segment of `s` (Python `in` on strings). -/
def hasSub (n : List Char) : List Char → Bool
  | [] => leadsWith n []
  | c :: cs => leadsWith n (c :: cs) || hasSub n cs

def strLeadsWith (p s : String) : Bool := leadsWith p.toList s.toList

def containsStr (n s : String) : Bool := hasSub n.toList s.toList

/-- Python `text.split` on a single newline character. -/
def splitOnNL : List Char → List (List Char)
  | [] => [[]]
  | c :: cs =>
    if c = '\n' then [] :: splitOnNL cs
    else
      match splitOnNL cs with
      | [] => [[c]]
      | l :: ls => (c :: l) :: ls

def splitLinesNL (s : String) : List String :=
  (splitOnNL s.toList).map String.mk

/-- ASCII uppercase letter, the regex class matched at the end of the
numbered-section patterns. -/
def isUpperA (c : Char) : Bool := 'A' ≤ c && c ≤ 'Z'

/-! ## Code-block detector (`is_code_block`, src/app.py lines 100-116) -/

/-- The fixed indicator-token list from `is_code_block`. -/
def code_indicators : List String :=
  ["SELECT", "FROM", "WHERE", "INSERT", "UPDATE", "DELETE",
   "VAR", "RETURN", "IF", "THEN", "ELSE",
   "def ", "class ", "import ", "function",
   "= \x7b", "=> ", "\x7d;", "();"]

/-- Number of indicator tokens whose uppercased form occurs in the
uppercased text. -/
def countIndicatorMatches (text : String) : Nat :=
  (code_indicators.filter
    (fun ind => containsStr (upperStr ind) (upperStr text))).length

/-- A line beginning with four spaces or a tab. -/
def isIndentedLine (l : String) : Bool :=
  strLeadsWith "    " l || strLeadsWith "\t" l

/-- Number of indented lines of the text. -/
def countIndentedLines (text : String) : Nat :=
  ((splitLinesNL text).filter isIndentedLine).length

/-- Embedding of `is_code_block`. -/
def is_code_block (text : String) : Bool :=
  decide (2 ≤ countIndicatorMatches text) || decide (3 ≤ countIndentedLines text)

/-! ## Section-header classifier (`is_section_header`, lines 119-144) -/

inductive HeadKind where
  | h1
  | h2
  | h3
deriving DecidableEq

/-- Consume a maximal non-empty run of characters satisfying `p` (a greedy
`p+`); `none` when the run is empty. -/
def chompRun (p : Char → Bool) (cs : List Char) : Option (List Char) :=
  if (cs.takeWhile p).isEmpty then none else some (cs.dropWhile p)

/-- Consume one literal character. -/
def chompChar (c : Char) : List Char → Option (List Char)
  | [] => none
  | x :: xs => if x = c then some xs else none

/-- The class `[A-Z]` matched against the head of the rest. -/
def headUpper : List Char → Bool
  | [] => false
  | c :: _ => isUpperA c

/-- Matcher for the source regex `^(\d+)\.\s+[A-Z]` (Python `re.match`). -/
def reL1 (cs : List Char) : Bool :=
  match chompRun Char.isDigit cs with
  | none => false
  | some r1 =>
    match chompChar '.' r1 with
    | none => false
    | some r2 =>
      match chompRun isPySpace r2 with
      | none => false
      | some r3 => headUpper r3

/-- Matcher for the source regex `^(\d+)\.(\d+)\s+[A-Z]`. -/
def reL2 (cs : List Char) : Bool :=
  match chompRun Char.isDigit cs with
  | none => false
  | some r1 =>
    match chompChar '.' r1 with
    | none => false
    | some r2 =>
      match chompRun Char.isDigit r2 with
      | none => false
      | some r3 =>
        match chompRun isPySpace r3 with
        | none => false
        | some r4 => headUpper r4

/-- Matcher for the source regex `^(\d+)\.(\d+)\.(\d+)\s+[A-Z]`. -/
def reL3 (cs : List Char) : Bool :=
  match chompRun Char.isDigit cs with
  | none => false
  | some r1 =>
    match chompChar '.' r1 with
    | none => false
    | some r2 =>
      match chompRun Char.isDigit r2 with
      | none => false
      | some r3 =>
        match chompChar '.' r3 with
        | none => false
        | some r4 =>
          match chompRun Char.isDigit r4 with
          | none => false
          | some r5 =>
            match chompRun isPySpace r5 with
            | none => false
            | some r6 => headUpper r6

/-- The fixed keyword list from `is_section_header`. -/
def header_keywords : List String :=
  ["Summary", "Conclusion", "Overview", "Introduction",
   "Background", "Results", "Analysis", "Recommendations",
   "Final Summary", "Next Steps"]

/-- `text == keyword or text.startswith(keyword + ':')` over the list. -/
def keywordHit (t : String) : Bool :=
  header_keywords.any (fun k => t == k || strLeadsWith (k ++ ":") t)

/-- Embedding of `is_section_header`; the `isBold` argument is accepted but
never consulted, exactly as in the source. -/
def is_section_header (text : String) (isBold : Bool) : Option HeadKind :=
  let t := pyStrip text
  if reL3 t.toList then some .h3
  else if reL2 t.toList then some .h2
  else if reL1 t.toList then some .h1
  else if keywordHit t then some .h1
  else none

/-! ## Paragraph model and bullet detection (`is_bullet_point`, lines 147-168) -/

/-- A run of a paragraph; only the bold flag is ever read by the pipeline. -/
structure Run where
  bold : Bool
deriving DecidableEq

/-- A document paragraph as exposed by the document-model library:
raw text, optional style name, runs, and whether the paragraph's
formatting properties carry list-numbering markup (`w:numPr`). -/
structure Para where
  text : String
  styleName : Option String
  runs : List Run
  hasNumPr : Bool
deriving DecidableEq

/-- `para.runs and para.runs[0].bold if para.runs else False`. -/
def firstRunBold (p : Para) : Bool :=
  match p.runs with
  | [] => false
  | r :: _ => r.bold

/-- `para.style.name.lower()` when a style is present, else the empty
string used by the extraction loop. -/
def styleNameLower (p : Para) : String :=
  match p.styleName with
  | some s => lowerStr s
  | none => ""

/-- First literal of the source's `startswith` tuple.  The source file
contains the byte sequence decoding to the three characters
U+00E2, U+20AC, U+00A2 (a double-encoded bullet), embedded here verbatim. -/
def glyphPre1 : String := String.mk ['â', '€', '¢']

/-- Fourth literal of the source's `startswith` tuple: the three characters
U+00E2, U+20AC, U+201C (a double-encoded en-dash), embedded verbatim. -/
def glyphPre2 : String := String.mk ['â', '€', '“']

/-- Embedding of `is_bullet_point` (the `text` argument is the already
stripped paragraph text, as at the call site). -/
def is_bullet_point (p : Para) (text : String) : Bool :=
  (match p.styleName with
   | some s => containsStr "list" (lowerStr s)
   | none => false)
  || (strLeadsWith glyphPre1 text || strLeadsWith "-" text
      || strLeadsWith "*" text || strLeadsWith glyphPre2 text)
  || strLeadsWith "Result:" text
  || p.hasNumPr

/-- The character class of the source regex `^[..]\s*` used to clean bullet
text: the six distinct characters of its (double-encoded) class literal. -/
def bulletGlyphClass (c : Char) : Bool :=
  c = 'â' || c = '€' || c = '¢' || c = '-' || c = '*' || c = '“'

/-- `re.sub` of one leading class character plus following whitespace. -/
def cleanBulletText (text : String) : String :=
  match text.toList with
  | [] => text
  | c :: rest =>
    if bulletGlyphClass c then String.mk (rest.dropWhile isPySpace) else text

/-! ## Classified content items (the dicts built by the extraction pass) -/

inductive ContentItem where
  | title (text : String)
  | heading1 (text : String)
  | heading2 (text : String)
  | heading3 (text : String)
  | paragraph (text : String)
  | bullet (text : String)
  | code_block (lines : List String) (text : String)
  | table (data : List (List String))
deriving DecidableEq

/-- The per-paragraph classification block of `extract_content_from_docx`
(lines 199-210); `t` is the stripped, non-empty paragraph text. -/
def classifyPara (p : Para) (t : String) : ContentItem :=
  if containsStr "title" (styleNameLower p) then .title t
  else if is_bullet_point p t then .bullet (cleanBulletText t)
  else
    match is_section_header t (firstRunBold p) with
    | some .h1 => .heading1 t
    | some .h2 => .heading2 t
    | some .h3 => .heading3 t
    | none => .paragraph t

/-- `'following' in text.lower() and ('query' in text.lower() or 'soql' in
text.lower())`. -/
def mentionsQuery (t : String) : Bool :=
  containsStr "following" (lowerStr t)
    && (containsStr "query" (lowerStr t) || containsStr "soql" (lowerStr t))

/-! ## Text-box records and XML walk (lines 49-97) -/

/-- A recovered text-box record (`lines` plus the joined text). -/
structure Textbox where
  lines : List String
  text : String
deriving DecidableEq

/-- The dict appended for a consumed text box. -/
def mkCodeItem (tb : Textbox) : ContentItem := .code_block tb.lines tb.text

/-- An XML element: tag, optional text payload, children. -/
inductive Xml where
  | node (tag : String) (txt : Option String) (children : List Xml)

/-- The tag of an element. -/
def Xml.tagOf : Xml → String
  | .node tg _ _ => tg

/-- The text payload of an element. -/
def Xml.txtOf : Xml → Option String
  | .node _ tx _ => tx

mutual

/-- `element.iter(tag)`: all descendant-or-self elements with the given
tag, in document (preorder) order. -/
def iterTag (t : String) : Xml → List Xml
  | .node tg tx ch =>
    (if tg = t then [Xml.node tg tx ch] else []) ++ iterTagList t ch

def iterTagList (t : String) : List Xml → List Xml
  | [] => []
  | x :: xs => iterTag t x ++ iterTagList t xs

end

/-- The `w:` namespace of the main wordprocessing markup. -/
def wNS : String :=
  "\x7bhttp://schemas.openxmlformats.org/wordprocessingml/2006/main\x7d"

/-- The `wps:` namespace of wordprocessingShape markup. -/
def wpsNS : String :=
  "\x7bhttp://schemas.microsoft.com/office/word/2010/wordprocessingShape\x7d"

/-- One line per `w:p` inside a text box: the concatenation of the non-empty
texts of its `w:t` descendants, kept only when some text was found. -/
def lineOfPara (p : Xml) : Option String :=
  let ts := (iterTag (wNS ++ "t") p).filterMap
    (fun x => match x.txtOf with
      | some s => if s = "" then none else some s
      | none => none)
  if ts = [] then none else some (String.join ts)

def linesOfTxbx (b : Xml) : List String :=
  (iterTag (wNS ++ "p") b).filterMap lineOfPara

/-- The loop body over `root.iter(wps:txbx)`: keep a box when it produced
lines and its joined text passes `is_code_block`. -/
def walkTextboxes (root : Xml) : List Textbox :=
  (iterTag (wpsNS ++ "txbx") root).filterMap
    (fun b =>
      let lines := linesOfTxbx b
      if lines = [] then none
      else
        let full := String.intercalate "\n" lines
        if is_code_block full then some ⟨lines, full⟩ else none)

/-- Outcome of opening the uploaded bytes as a packaged document: not a
zip archive at all, a zip whose main part `word/document.xml` is absent,
a main part whose XML fails to parse, or a parsed XML root. -/
inductive DocxPkg where
  | notAZip
  | zipNoMain
  | badXml
  | parsed (root : Xml)

/-- Embedding of `extract_textboxes_from_docx`: the recovered boxes plus
whether a (non-fatal) warning was surfaced.  The two exception paths are
caught by the `try`/`except` and warn; an absent main part merely skips
the body, returning the empty list silently. -/
def extract_textboxes_from_docx : DocxPkg → List Textbox × Bool
  | .notAZip => ([], true)
  | .zipNoMain => ([], false)
  | .badXml => ([], true)
  | .parsed root => (walkTextboxes root, false)

/-! ## Content assembly (`extract_content_from_docx`, lines 171-231) -/

/-- The paragraph loop: skip empty-after-strip paragraphs, classify the
rest, and after a paragraph mentioning a query append the next unconsumed
text box (cursor `i`), when one remains. -/
def paraPass (tbs : List Textbox) : List Para → Nat → List ContentItem
  | [], _ => []
  | p :: ps, i =>
    let t := pyStrip p.text
    if t = "" then paraPass tbs ps i
    else
      let item := classifyPara p t
      if mentionsQuery t then
        match tbs[i]? with
        | some tb => item :: mkCodeItem tb :: paraPass tbs ps (i + 1)
        | none => item :: paraPass tbs ps i
      else item :: paraPass tbs ps i

/-- The cell loop of the table pass: strip each cell and append it unless
it equals the previously appended value (`last`). -/
def dedupRowGo (last : String) : List String → List String
  | [] => []
  | c :: cs =>
    let t := pyStrip c
    if t = last then dedupRowGo last cs else t :: dedupRowGo t cs

/-- The row loop seeded with an empty accumulator (the first stripped cell
is always appended). -/
def dedupRow : List String → List String
  | [] => []
  | c :: cs =>
    let t := pyStrip c
    t :: dedupRowGo t cs

/-- The row pass over one table: deduplicate each row, dropping rows that
came out empty (`if row_data:`). -/
def processTable (rows : List (List String)) : List (List String) :=
  rows.filterMap (fun r =>
    let d := dedupRow r
    if d = [] then none else some d)

/-- The table pass: one `table` item per table with non-empty data
(`if table_data:`). -/
def processTables (tables : List (List (List String))) : List ContentItem :=
  tables.filterMap (fun tb =>
    let td := processTable tb
    if td = [] then none else some (.table td))

/-- The document as read: the packaged bytes (for text-box extraction),
the paragraph sequence and the table sequence. -/
structure DocxFile where
  pkg : DocxPkg
  paragraphs : List Para
  tables : List (List (List String))

/-- Embedding of `extract_content_from_docx`. -/
def extract_content_from_docx (d : DocxFile) : List ContentItem :=
  let tbs := (extract_textboxes_from_docx d.pkg).1
  paraPass tbs d.paragraphs 0 ++ processTables d.tables

/-! ## Renderer observables (`create_formatted_document`, lines 358-502) -/

/-- The subtitle search (lines 394-401): the first item that is a `title`
with text different from the document title, or else the first `heading1`,
whichever comes first. -/
def findSubtitle (dt : String) : List ContentItem → Option String
  | [] => none
  | item :: rest =>
    match item with
    | .title t => if t ≠ dt then some t else findSubtitle dt rest
    | .heading1 t => some t
    | _ => findSubtitle dt rest

/-- Whether the subtitle paragraph is added to the title page
(`if subtitle_text and subtitle_text != doc_title`). -/
def subtitleShown (dt : String) (content : List ContentItem) : Bool :=
  match findSubtitle dt content with
  | some s => !(s = "") && s ≠ dt
  | none => false

/-- The body loop (lines 440-491), observed as the sequence of items that
actually render: `title` items are skipped, a `heading1` is skipped once
while the flag is set, everything else is emitted. -/
def renderBodyGo : List ContentItem → Bool → List ContentItem
  | [], _ => []
  | item :: rest, flag =>
    match item with
    | .title _ => renderBodyGo rest flag
    | .heading1 t =>
      if flag then renderBodyGo rest false
      else .heading1 t :: renderBodyGo rest flag
    | _ => item :: renderBodyGo rest flag

/-- The rendered body: the flag starts as `subtitle_text is not None`. -/
def renderBody (content : List ContentItem) (dt : String) : List ContentItem :=
  renderBodyGo content (findSubtitle dt content).isSome

/-! ## Specification-side definitions

These definitions restate parts of the specification's wording, to be
compared with the embeddings above by refinement theorems. -/

/-- A non-empty all-digit segment (regex `\d+`). -/
def DigitsSeg (l : List Char) : Prop :=
  l ≠ [] ∧ ∀ c ∈ l, Char.isDigit c = true

/-- A non-empty all-whitespace segment (regex `\s+`). -/
def SpaceSeg (l : List Char) : Prop :=
  l ≠ [] ∧ ∀ c ∈ l, isPySpace c = true

/-- Declarative reading of `^\d+\.\s+[A-Z]`: the text decomposes as a
digit run, a dot, a whitespace run, an uppercase letter, and anything. -/
def SpecLevel1 (cs : List Char) : Prop :=
  ∃ d sp c rest, cs = d ++ '.' :: (sp ++ c :: rest)
    ∧ DigitsSeg d ∧ SpaceSeg sp ∧ isUpperA c = true

/-- Declarative reading of `^\d+\.\d+\s+[A-Z]`. -/
def SpecLevel2 (cs : List Char) : Prop :=
  ∃ d1 d2 sp c rest, cs = d1 ++ '.' :: (d2 ++ (sp ++ c :: rest))
    ∧ DigitsSeg d1 ∧ DigitsSeg d2 ∧ SpaceSeg sp ∧ isUpperA c = true

/-- Declarative reading of `^\d+\.\d+\.\d+\s+[A-Z]`. -/
def SpecLevel3 (cs : List Char) : Prop :=
  ∃ d1 d2 d3 sp c rest, cs = d1 ++ '.' :: (d2 ++ '.' :: (d3 ++ (sp ++ c :: rest)))
    ∧ DigitsSeg d1 ∧ DigitsSeg d2 ∧ DigitsSeg d3 ∧ SpaceSeg sp ∧ isUpperA c = true

/-- The spec's description of the paragraph pass with code-block
insertion, phrased over the remaining (unconsumed) text-box list: after a
paragraph announcing a query, the next unconsumed code block (when one
remains) is emitted immediately after that paragraph's item and is
consumed; blocks are consumed at most once, in order; an announcement
with no remaining block inserts nothing. -/
def assembleSpec : List Para → List Textbox → List ContentItem
  | [], _ => []
  | p :: ps, tbs =>
    let t := pyStrip p.text
    if t = "" then assembleSpec ps tbs
    else
      let item := classifyPara p t
      if mentionsQuery t then
        match tbs with
        | [] => item :: assembleSpec ps []
        | tb :: rest => item :: mkCodeItem tb :: assembleSpec ps rest
      else item :: assembleSpec ps tbs

/-- The spec's description of row deduplication: collapse exactly the
consecutive duplicates of the (trimmed) cell list. -/
def collapseConsec : List String → List String
  | [] => []
  | [a] => [a]
  | a :: b :: r =>
    if b = a then collapseConsec (a :: r) else a :: collapseConsec (b :: r)

/-- Everything except `title` items (which the body loop always skips). -/
def notTitleB : ContentItem → Bool
  | .title _ => false
  | _ => true

/-- Remove the first `heading1` item of a sequence, keep the rest. -/
def dropFirstH1 : List ContentItem → List ContentItem
  | [] => []
  | i :: rest =>
    match i with
    | .heading1 _ => rest
    | _ => i :: dropFirstH1 rest

/-- The spec's subtitle condition: a `title` item with text distinct from
the supplied title, or a `heading1` item. -/
def isSubtitleChoice (dt : String) : ContentItem → Bool
  | .title t => !(t == dt)
  | .heading1 _ => true
  | _ => false

/-- The text payload of an item (empty for tables, which carry none). -/
def itemTextOf : ContentItem → String
  | .title t => t
  | .heading1 t => t
  | .heading2 t => t
  | .heading3 t => t
  | .paragraph t => t
  | .bullet t => t
  | .code_block _ t => t
  | .table _ => ""

/-- Is the item a `table` item? -/
def isTableItem : ContentItem → Bool
  | .table _ => true
  | _ => false

/-- The claimed payload invariant with bullets exempted: text-carrying
items (other than bullets) have non-empty text, code blocks have at least
one line, tables at least one row. -/
def payloadOkB : ContentItem → Bool
  | .title t => !(t == "")
  | .heading1 t => !(t == "")
  | .heading2 t => !(t == "")
  | .heading3 t => !(t == "")
  | .paragraph t => !(t == "")
  | .bullet _ => true
  | .code_block ls _ => !ls.isEmpty
  | .table d => !d.isEmpty

/-! ## Helper theorems -/

theorem space_char_cases (c : Char) (h : isPySpace c = true) :
    c = ' ' ∨ c = '\t' ∨ c = '\n' ∨ c = '\r' ∨ c = '\x0b' ∨ c = '\x0c' := by
  simp only [isPySpace, Bool.or_eq_true, decide_eq_true_eq] at h
  tauto

theorem upper_not_space (c : Char) (h : isUpperA c = true) : isPySpace c = false := by
  cases hs : isPySpace c with
  | false => rfl
  | true =>
    rcases space_char_cases c hs with rfl | rfl | rfl | rfl | rfl | rfl <;>
      exact absurd h (by decide)

theorem space_not_digit (c : Char) (h : isPySpace c = true) : Char.isDigit c = false := by
  rcases space_char_cases c h with rfl | rfl | rfl | rfl | rfl | rfl <;> decide

theorem dropWhile_head_false (p : Char → Bool) :
    ∀ (l : List Char) (c : Char) (t : List Char), l.dropWhile p = c :: t → p c = false := by
  intro l
  induction l with
  | nil => intro c t h; simp [List.dropWhile] at h
  | cons x xs ih =>
    intro c t h
    rw [List.dropWhile_cons] at h
    by_cases hx : p x = true
    · rw [if_pos hx] at h
      exact ih c t h
    · rw [if_neg hx] at h
      injection h with h1 _
      subst h1
      exact Bool.not_eq_true _ ▸ hx

theorem takeWhile_dropWhile_of (p : Char → Bool) :
    ∀ (d r : List Char), (∀ c ∈ d, p c = true) →
    (∀ c t, r = c :: t → p c = false) →
    (d ++ r).takeWhile p = d ∧ (d ++ r).dropWhile p = r := by
  intro d
  induction d with
  | nil =>
    intro r _ hr
    simp only [List.nil_append]
    constructor
    · cases r with
      | nil => simp
      | cons c t => simp [List.takeWhile_cons, hr c t rfl]
    · cases r with
      | nil => simp
      | cons c t => simp [List.dropWhile_cons, hr c t rfl]
  | cons x xs ih =>
    intro r hd hr
    have hx : p x = true := hd x (List.mem_cons_self _ _)
    have hrec := ih r (fun c hc => hd c (List.mem_cons_of_mem _ hc)) hr
    simp [List.takeWhile_cons, List.dropWhile_cons, hx, hrec.1, hrec.2]

theorem chompChar_eq_some (c : Char) (l r : List Char) :
    chompChar c l = some r ↔ l = c :: r := by
  cases l with
  | nil => simp [chompChar]
  | cons x xs =>
    rcases eq_or_ne x c with rfl | hne
    · simp [chompChar]
    · simp [chompChar, hne, hne.symm]

theorem chompRun_eq_some (p : Char → Bool) (cs r : List Char) :
    chompRun p cs = some r ↔
      ∃ d, cs = d ++ r ∧ d ≠ [] ∧ (∀ c ∈ d, p c = true) ∧
        (∀ c t, r = c :: t → p c = false) := by
  constructor
  · intro h
    unfold chompRun at h
    by_cases he : (cs.takeWhile p).isEmpty = true
    · rw [if_pos he] at h
      simp at h
    · rw [if_neg he] at h
      have hr : r = cs.dropWhile p := (Option.some.inj h).symm
      refine ⟨cs.takeWhile p, ?_, ?_, ?_, ?_⟩
      · rw [hr, List.takeWhile_append_dropWhile]
      · simpa [List.isEmpty_iff] using he
      · intro c hc
        exact List.mem_takeWhile_imp hc
      · intro c t ht
        exact dropWhile_head_false p cs c t (by rw [← hr]; exact ht)
  · rintro ⟨d, rfl, hne, hd, hr⟩
    obtain ⟨ht, hdrop⟩ := takeWhile_dropWhile_of p d r hd hr
    unfold chompRun
    rw [ht, hdrop, if_neg (by simpa [List.isEmpty_iff] using hne)]

theorem leadsWith_iff (p : List Char) :
    ∀ s, leadsWith p s = true ↔ ∃ r, s = p ++ r := by
  induction p with
  | nil => intro s; simp [leadsWith]
  | cons a as ih =>
    intro s
    cases s with
    | nil => simp [leadsWith]
    | cons b bs =>
      simp only [leadsWith, Bool.and_eq_true, decide_eq_true_eq]
      constructor
      · rintro ⟨rfl, h⟩
        obtain ⟨r, rfl⟩ := (ih bs).mp h
        exact ⟨r, rfl⟩
      · rintro ⟨r, h⟩
        injection h with h1 h2
        exact ⟨h1.symm, (ih bs).mpr ⟨r, h2⟩⟩

theorem hasSub_iff (n : List Char) :
    ∀ s, hasSub n s = true ↔ ∃ pre post, s = pre ++ n ++ post := by
  intro s
  induction s with
  | nil =>
    simp only [hasSub]
    rw [leadsWith_iff]
    constructor
    · rintro ⟨r, hr⟩
      exact ⟨[], r, by simpa using hr⟩
    · rintro ⟨pre, post, h⟩
      obtain ⟨h1, h2⟩ := List.append_eq_nil.mp h.symm
      obtain ⟨h3, h4⟩ := List.append_eq_nil.mp h1
      exact ⟨post, by simp [h2, h4]⟩
  | cons c cs ih =>
    simp only [hasSub, Bool.or_eq_true]
    constructor
    · rintro (h | h)
      · obtain ⟨r, hr⟩ := (leadsWith_iff n _).mp h
        exact ⟨[], r, by simpa using hr⟩
      · obtain ⟨pre, post, hr⟩ := ih.mp h
        exact ⟨c :: pre, post, by simp [hr]⟩
    · rintro ⟨pre, post, h⟩
      cases pre with
      | nil =>
        left
        exact (leadsWith_iff n _).mpr ⟨post, by simpa using h⟩
      | cons x xs =>
        right
        rw [List.cons_append, List.cons_append] at h
        injection h with _ h2
        exact ih.mpr ⟨xs, post, h2⟩

theorem reL1_iff (cs : List Char) : reL1 cs = true ↔ SpecLevel1 cs := by
  constructor
  · intro h
    unfold reL1 at h
    split at h
    · simp at h
    · rename_i r1 h1
      split at h
      · simp at h
      · rename_i r2 h2
        split at h
        · simp at h
        · rename_i r3 h3
          obtain ⟨d, hcs, hdne, hdall, -⟩ := (chompRun_eq_some _ _ _).mp h1
          have hr1 : r1 = '.' :: r2 := (chompChar_eq_some _ _ _).mp h2
          obtain ⟨sp, hr2, hspne, hspall, -⟩ := (chompRun_eq_some _ _ _).mp h3
          cases r3 with
          | nil => simp [headUpper] at h
          | cons c rest =>
            refine ⟨d, sp, c, rest, ?_, ⟨hdne, hdall⟩, ⟨hspne, hspall⟩, ?_⟩
            · rw [hcs, hr1, hr2]
            · simpa [headUpper] using h
  · rintro ⟨d, sp, c, rest, rfl, ⟨hdne, hdall⟩, ⟨hspne, hspall⟩, hup⟩
    have h1 : chompRun Char.isDigit (d ++ '.' :: (sp ++ c :: rest)) =
        some ('.' :: (sp ++ c :: rest)) := by
      rw [chompRun_eq_some]
      refine ⟨d, rfl, hdne, hdall, ?_⟩
      intro c' t' hh
      injection hh with hh1 _
      rw [← hh1]
      decide
    have h2 : chompChar '.' ('.' :: (sp ++ c :: rest)) = some (sp ++ c :: rest) := by
      rw [chompChar_eq_some]
    have h3 : chompRun isPySpace (sp ++ c :: rest) = some (c :: rest) := by
      rw [chompRun_eq_some]
      refine ⟨sp, rfl, hspne, hspall, ?_⟩
      intro c' t' hh
      injection hh with hh1 _
      rw [← hh1]
      exact upper_not_space c hup
    unfold reL1
    simp only [h1, h2, h3]
    simpa [headUpper] using hup

theorem reL2_iff (cs : List Char) : reL2 cs = true ↔ SpecLevel2 cs := by
  constructor
  · intro h
    unfold reL2 at h
    split at h
    · simp at h
    · rename_i r1 h1
      split at h
      · simp at h
      · rename_i r2 h2
        split at h
        · simp at h
        · rename_i r3 h3
          split at h
          · simp at h
          · rename_i r4 h4
            obtain ⟨d1, hcs, hd1ne, hd1all, -⟩ := (chompRun_eq_some _ _ _).mp h1
            have hr1 : r1 = '.' :: r2 := (chompChar_eq_some _ _ _).mp h2
            obtain ⟨d2, hr2, hd2ne, hd2all, -⟩ := (chompRun_eq_some _ _ _).mp h3
            obtain ⟨sp, hr3, hspne, hspall, -⟩ := (chompRun_eq_some _ _ _).mp h4
            cases r4 with
            | nil => simp [headUpper] at h
            | cons c rest =>
              refine ⟨d1, d2, sp, c, rest, ?_, ⟨hd1ne, hd1all⟩, ⟨hd2ne, hd2all⟩,
                ⟨hspne, hspall⟩, ?_⟩
              · rw [hcs, hr1, hr2, hr3]
              · simpa [headUpper] using h
  · rintro ⟨d1, d2, sp, c, rest, rfl, ⟨hd1ne, hd1all⟩, ⟨hd2ne, hd2all⟩,
      ⟨hspne, hspall⟩, hup⟩
    obtain ⟨s0, sp', rfl⟩ := List.exists_cons_of_ne_nil hspne
    have h1 : chompRun Char.isDigit (d1 ++ '.' :: (d2 ++ ((s0 :: sp') ++ c :: rest))) =
        some ('.' :: (d2 ++ ((s0 :: sp') ++ c :: rest))) := by
      rw [chompRun_eq_some]
      refine ⟨d1, rfl, hd1ne, hd1all, ?_⟩
      intro c' t' hh
      injection hh with hh1 _
      rw [← hh1]
      decide
    have h2 : chompChar '.' ('.' :: (d2 ++ ((s0 :: sp') ++ c :: rest))) =
        some (d2 ++ ((s0 :: sp') ++ c :: rest)) := by
      rw [chompChar_eq_some]
    have h3 : chompRun Char.isDigit (d2 ++ ((s0 :: sp') ++ c :: rest)) =
        some ((s0 :: sp') ++ c :: rest) := by
      rw [chompRun_eq_some]
      refine ⟨d2, rfl, hd2ne, hd2all, ?_⟩
      intro c' t' hh
      injection hh with hh1 _
      rw [← hh1]
      exact space_not_digit s0 (hspall s0 (List.mem_cons_self _ _))
    have h4 : chompRun isPySpace ((s0 :: sp') ++ c :: rest) = some (c :: rest) := by
      rw [chompRun_eq_some]
      refine ⟨s0 :: sp', rfl, hspne, hspall, ?_⟩
      intro c' t' hh
      injection hh with hh1 _
      rw [← hh1]
      exact upper_not_space c hup
    unfold reL2
    simp only [h1, h2, h3, h4]
    simpa [headUpper] using hup

theorem reL3_iff (cs : List Char) : reL3 cs = true ↔ SpecLevel3 cs := by
  constructor
  · intro h
    unfold reL3 at h
    split at h
    · simp at h
    · rename_i r1 h1
      split at h
      · simp at h
      · rename_i r2 h2
        split at h
        · simp at h
        · rename_i r3 h3
          split at h
          · simp at h
          · rename_i r4 h4
            split at h
            · simp at h
            · rename_i r5 h5
              split at h
              · simp at h
              · rename_i r6 h6
                obtain ⟨d1, hcs, hd1ne, hd1all, -⟩ := (chompRun_eq_some _ _ _).mp h1
                have hr1 : r1 = '.' :: r2 := (chompChar_eq_some _ _ _).mp h2
                obtain ⟨d2, hr2, hd2ne, hd2all, -⟩ := (chompRun_eq_some _ _ _).mp h3
                have hr3 : r3 = '.' :: r4 := (chompChar_eq_some _ _ _).mp h4
                obtain ⟨d3, hr4, hd3ne, hd3all, -⟩ := (chompRun_eq_some _ _ _).mp h5
                obtain ⟨sp, hr5, hspne, hspall, -⟩ := (chompRun_eq_some _ _ _).mp h6
                cases r6 with
                | nil => simp [headUpper] at h
                | cons c rest =>
                  refine ⟨d1, d2, d3, sp, c, rest, ?_, ⟨hd1ne, hd1all⟩,
                    ⟨hd2ne, hd2all⟩, ⟨hd3ne, hd3all⟩, ⟨hspne, hspall⟩, ?_⟩
                  · rw [hcs, hr1, hr2, hr3, hr4, hr5]
                  · simpa [headUpper] using h
  · rintro ⟨d1, d2, d3, sp, c, rest, rfl, ⟨hd1ne, hd1all⟩, ⟨hd2ne, hd2all⟩,
      ⟨hd3ne, hd3all⟩, ⟨hspne, hspall⟩, hup⟩
    obtain ⟨s0, sp', rfl⟩ := List.exists_cons_of_ne_nil hspne
    have h1 : chompRun Char.isDigit
        (d1 ++ '.' :: (d2 ++ '.' :: (d3 ++ ((s0 :: sp') ++ c :: rest)))) =
        some ('.' :: (d2 ++ '.' :: (d3 ++ ((s0 :: sp') ++ c :: rest)))) := by
      rw [chompRun_eq_some]
      refine ⟨d1, rfl, hd1ne, hd1all, ?_⟩
      intro c' t' hh
      injection hh with hh1 _
      rw [← hh1]
      decide
    have h2 : chompChar '.' ('.' :: (d2 ++ '.' :: (d3 ++ ((s0 :: sp') ++ c :: rest)))) =
        some (d2 ++ '.' :: (d3 ++ ((s0 :: sp') ++ c :: rest))) := by
      rw [chompChar_eq_some]
    have h3 : chompRun Char.isDigit (d2 ++ '.' :: (d3 ++ ((s0 :: sp') ++ c :: rest))) =
        some ('.' :: (d3 ++ ((s0 :: sp') ++ c :: rest))) := by
      rw [chompRun_eq_some]
      refine ⟨d2, rfl, hd2ne, hd2all, ?_⟩
      intro c' t' hh
      injection hh with hh1 _
      rw [← hh1]
      decide
    have h4 : chompChar '.' ('.' :: (d3 ++ ((s0 :: sp') ++ c :: rest))) =
        some (d3 ++ ((s0 :: sp') ++ c :: rest)) := by
      rw [chompChar_eq_some]
    have h5 : chompRun Char.isDigit (d3 ++ ((s0 :: sp') ++ c :: rest)) =
        some ((s0 :: sp') ++ c :: rest) := by
      rw [chompRun_eq_some]
      refine ⟨d3, rfl, hd3ne, hd3all, ?_⟩
      intro c' t' hh
      injection hh with hh1 _
      rw [← hh1]
      exact space_not_digit s0 (hspall s0 (List.mem_cons_self _ _))
    have h6 : chompRun isPySpace ((s0 :: sp') ++ c :: rest) = some (c :: rest) := by
      rw [chompRun_eq_some]
      refine ⟨s0 :: sp', rfl, hspne, hspall, ?_⟩
      intro c' t' hh
      injection hh with hh1 _
      rw [← hh1]
      exact upper_not_space c hup
    unfold reL3
    simp only [h1, h2, h3, h4, h5, h6]
    simpa [headUpper] using hup

/-! ## Claim theorems -/

/-- C4: for non-title, non-bullet paragraph text, a three-level numeric
prefix pattern classifies as heading3; a two-level match (not three-level)
as heading2; a one-level match (neither deeper) as heading1; otherwise an
exact or colon-prefixed structural keyword gives heading1; otherwise no
header kind is assigned (the text falls through to paragraph).  Numeric
patterns are tried most-specific-first and before keywords, so
"1.1 Overview" classifies as heading2. -/
theorem c4_section_patterns : ∀ (t : String) (b : Bool),
    (SpecLevel3 (pyStrip t).toList → is_section_header t b = some HeadKind.h3) ∧
    (SpecLevel2 (pyStrip t).toList → ¬ SpecLevel3 (pyStrip t).toList →
      is_section_header t b = some HeadKind.h2) ∧
    (SpecLevel1 (pyStrip t).toList → ¬ SpecLevel2 (pyStrip t).toList →
      ¬ SpecLevel3 (pyStrip t).toList → is_section_header t b = some HeadKind.h1) ∧
    (¬ SpecLevel1 (pyStrip t).toList → ¬ SpecLevel2 (pyStrip t).toList →
      ¬ SpecLevel3 (pyStrip t).toList → keywordHit (pyStrip t) = true →
      is_section_header t b = some HeadKind.h1) ∧
    (¬ SpecLevel1 (pyStrip t).toList → ¬ SpecLevel2 (pyStrip t).toList →
      ¬ SpecLevel3 (pyStrip t).toList → keywordHit (pyStrip t) = false →
      is_section_header t b = none) ∧
    is_section_header "1.1 Overview" b = some HeadKind.h2 := by
  intro t b
  have hf3 : ¬ SpecLevel3 (pyStrip t).toList → reL3 (pyStrip t).data = false := by
    intro h
    cases hb : reL3 (pyStrip t).data
    · rfl
    · exact absurd ((reL3_iff ((pyStrip t).data)).mp hb) h
  have hf2 : ¬ SpecLevel2 (pyStrip t).toList → reL2 (pyStrip t).data = false := by
    intro h
    cases hb : reL2 (pyStrip t).data
    · rfl
    · exact absurd ((reL2_iff ((pyStrip t).data)).mp hb) h
  have hf1 : ¬ SpecLevel1 (pyStrip t).toList → reL1 (pyStrip t).data = false := by
    intro h
    cases hb : reL1 (pyStrip t).data
    · rfl
    · exact absurd ((reL1_iff ((pyStrip t).data)).mp hb) h
  refine ⟨?_, ?_, ?_, ?_, ?_, ?_⟩
  · intro h3
    simp [is_section_header, (reL3_iff ((pyStrip t).data)).mpr h3]
  · intro h2 h3
    simp [is_section_header, hf3 h3, (reL2_iff ((pyStrip t).data)).mpr h2]
  · intro h1 h2 h3
    simp [is_section_header, hf3 h3, hf2 h2, (reL1_iff ((pyStrip t).data)).mpr h1]
  · intro h1 h2 h3 hk
    simp [is_section_header, hf3 h3, hf2 h2, hf1 h1, hk]
  · intro h1 h2 h3 hk
    simp [is_section_header, hf3 h3, hf2 h2, hf1 h1, hk]
  · cases b <;> decide

/-- Witness for C4 at concrete inputs: "1.2.3 Alpha" satisfies the
three-level declarative pattern and classifies as heading3. -/
theorem c4_section_patterns_witness :
    SpecLevel3 (pyStrip "1.2.3 Alpha").toList ∧
    is_section_header "1.2.3 Alpha" false = some HeadKind.h3 := by
  have h : SpecLevel3 (pyStrip "1.2.3 Alpha").toList :=
    ⟨['1'], ['2'], ['3'], [' '], 'A', ['l', 'p', 'h', 'a'], by decide,
      ⟨by decide, by decide⟩, ⟨by decide, by decide⟩, ⟨by decide, by decide⟩,
      ⟨by decide, by decide⟩, by decide⟩
  exact ⟨h, (c4_section_patterns "1.2.3 Alpha" false).1 h⟩

/-- C10: classification is independent of the first run's bold flag — the
flag is computed and passed to the section-header check but never
consulted, so two paragraphs differing only in their runs classify
identically (same kind, same stored text). -/
theorem c10_bold_independent :
    ∀ (text : String) (style : Option String) (numPr : Bool)
      (runs1 runs2 : List Run) (t : String),
    classifyPara ⟨text, style, runs1, numPr⟩ t =
      classifyPara ⟨text, style, runs2, numPr⟩ t := by
  intro text style numPr runs1 runs2 t
  rfl

/-- C6: the code-block detector returns true exactly when at least 2
indicator tokens occur as (case-insensitive) substrings or at least 3
lines are indented; substring occurrence has its declarative meaning; and
1 indicator match with 0 indented lines yields false (the thresholds are
strict lower bounds). -/
theorem c6_detector : ∀ t : String,
    (is_code_block t = true ↔
      2 ≤ countIndicatorMatches t ∨ 3 ≤ countIndentedLines t) ∧
    (∀ ind : String, containsStr ind t = true ↔
      ∃ pre post, t.toList = pre ++ ind.toList ++ post) ∧
    (countIndicatorMatches t = 1 ∧ countIndentedLines t = 0 →
      is_code_block t = false) := by
  intro t
  refine ⟨?_, ?_, ?_⟩
  · simp [is_code_block]
  · intro ind
    exact hasSub_iff ind.toList t.toList
  · rintro ⟨h1, h2⟩
    simp [is_code_block, h1, h2]

/-- Witness for C6: a text with exactly one indicator match and no
indented lines is not classified as code. -/
theorem c6_detector_witness :
    countIndicatorMatches "SELECT something" = 1 ∧
    countIndentedLines "SELECT something" = 0 ∧
    is_code_block "SELECT something" = false :=
  ⟨by decide, by decide, (c6_detector "SELECT something").2.2 ⟨by decide, by decide⟩⟩

theorem dedupRowGo_collapse : ∀ (cs : List String) (last : String),
    last :: dedupRowGo last cs = collapseConsec (last :: cs.map pyStrip) := by
  intro cs
  induction cs with
  | nil => intro last; simp [dedupRowGo, collapseConsec]
  | cons c cs ih =>
    intro last
    simp only [List.map_cons, collapseConsec]
    by_cases h : pyStrip c = last
    · rw [if_pos h, ← ih last]
      simp [dedupRowGo, h]
    · rw [if_neg h, ← ih (pyStrip c)]
      simp [dedupRowGo, h]

/-- C8: the table-pass cell loop collapses exactly the consecutive
duplicates of the trimmed cell values of a row; the spec's two examples
hold, and rows of differing lengths are preserved as-is. -/
theorem c8_row_dedup :
    (∀ row : List String, dedupRow row = collapseConsec (row.map pyStrip)) ∧
    dedupRow ["A", "A", "B", "B", "B"] = ["A", "B"] ∧
    dedupRow ["A", "B", "A"] = ["A", "B", "A"] ∧
    processTable [["Col1", "Col1"], ["x", "y"]] = [["Col1"], ["x", "y"]] := by
    refine ⟨?_, by decide, by decide, by decide⟩
    intro row
    cases row with
    | nil => simp [dedupRow, collapseConsec]
    | cons c cs =>
      simp only [dedupRow, List.map_cons]
      exact dedupRowGo_collapse cs (pyStrip c)

/-- C9 (amended): all three failure outcomes of text-box extraction yield
an empty sequence instead of an exception, and the pipeline continues
with paragraph and table data alone; a warning is surfaced for an
unopenable package and for an XML parse failure, but an absent main part
returns empty silently. -/
theorem c9_soft_fail : ∀ (paras : List Para) (tables : List (List (List String))),
    extract_textboxes_from_docx DocxPkg.notAZip = ([], true) ∧
    extract_textboxes_from_docx DocxPkg.zipNoMain = ([], false) ∧
    extract_textboxes_from_docx DocxPkg.badXml = ([], true) ∧
    (∀ pkg : DocxPkg, extract_content_from_docx ⟨pkg, paras, tables⟩ =
      paraPass (extract_textboxes_from_docx pkg).1 paras 0 ++ processTables tables) := by
  intro paras tables
  exact ⟨rfl, rfl, rfl, fun pkg => rfl⟩

/-- Counterexample for C9 as stated: when the main document part is
absent, the extractor returns the empty sequence *silently* — no warning
is surfaced, contrary to the claim that all three failure modes warn. -/
theorem c9_counterexample :
    (extract_textboxes_from_docx DocxPkg.zipNoMain).2 = false := rfl

/-- C5 (code bug): a paragraph whose text begins with a real bullet glyph
U+2022 is *not* recognized as a bullet and classifies as a plain
paragraph, because the source's glyph literals are the double-encoded
three-character sequences embedded in `glyphPre1`/`glyphPre2` rather than
the bullet and en-dash characters. -/
theorem c5_mojibake_eval :
    is_bullet_point ⟨"• First point", none, [], false⟩ "• First point" = false ∧
    classifyPara ⟨"• First point", none, [], false⟩ "• First point" =
      ContentItem.paragraph "• First point" ∧
    glyphPre1.toList = ['â', '€', '¢'] ∧
    glyphPre2.toList = ['â', '€', '“'] :=
  ⟨by decide, by decide, rfl, rfl⟩

theorem renderBodyGo_false : ∀ l : List ContentItem,
    renderBodyGo l false = l.filter notTitleB := by
  intro l
  induction l with
  | nil => rfl
  | cons i rest ih =>
    cases i <;> simp [renderBodyGo, notTitleB, List.filter_cons, ih]

theorem renderBodyGo_true : ∀ l : List ContentItem,
    renderBodyGo l true = dropFirstH1 (l.filter notTitleB) := by
  intro l
  induction l with
  | nil => rfl
  | cons i rest ih =>
    cases i <;>
      simp [renderBodyGo, notTitleB, dropFirstH1, List.filter_cons, ih,
        renderBodyGo_false]

theorem findSubtitle_eq_find (dt : String) :
    ∀ l, findSubtitle dt l = (l.find? (isSubtitleChoice dt)).map itemTextOf := by
  intro l
  induction l with
  | nil => rfl
  | cons i rest ih =>
    cases i with
    | title t =>
      by_cases h : t = dt
      · subst h
        simp [findSubtitle, isSubtitleChoice, List.find?_cons, ih]
      · simp [findSubtitle, isSubtitleChoice, h, List.find?_cons, itemTextOf]
    | heading1 t => simp [findSubtitle, isSubtitleChoice, List.find?_cons, itemTextOf]
    | heading2 t => simp [findSubtitle, isSubtitleChoice, List.find?_cons, ih]
    | heading3 t => simp [findSubtitle, isSubtitleChoice, List.find?_cons, ih]
    | paragraph t => simp [findSubtitle, isSubtitleChoice, List.find?_cons, ih]
    | bullet t => simp [findSubtitle, isSubtitleChoice, List.find?_cons, ih]
    | code_block ls t => simp [findSubtitle, isSubtitleChoice, List.find?_cons, ih]
    | table d => simp [findSubtitle, isSubtitleChoice, List.find?_cons, ih]

/-- C2 (amended): the subtitle is the text of the first item that is a
`title` with text distinct from the supplied title or a `heading1`,
whichever comes first; `title` items never render in the body; and
whenever any subtitle was chosen, the first `heading1` of the sequence is
suppressed from the body by the one-shot skip flag — exactly the chosen
item when the subtitle came from a `heading1`, but also when the subtitle
came from a `title`-typed item, in which case the first `heading1` is
suppressed despite not being the subtitle. -/
theorem c2_subtitle_and_skip : ∀ (content : List ContentItem) (dt : String),
    findSubtitle dt content = (content.find? (isSubtitleChoice dt)).map itemTextOf ∧
    renderBody content dt =
      (if (findSubtitle dt content).isSome
       then dropFirstH1 (content.filter notTitleB)
       else content.filter notTitleB) := by
  intro content dt
  refine ⟨findSubtitle_eq_find dt content, ?_⟩
  unfold renderBody
  cases h : (findSubtitle dt content).isSome
  · rw [if_neg (by simp)]
    exact renderBodyGo_false content
  · rw [if_pos rfl]
    exact renderBodyGo_true content

/-- Counterexample for C2 as stated: with supplied title "T", the chosen
subtitle item is the `title` item "Sub", yet the `heading1` item "H" —
which is not the chosen item — is also suppressed, so the rendered body
is empty instead of containing the heading. -/
theorem c2_counterexample :
    findSubtitle "T" [ContentItem.title "Sub", ContentItem.heading1 "H"] = some "Sub" ∧
    renderBody [ContentItem.title "Sub", ContentItem.heading1 "H"] "T" = [] := by
  exact ⟨rfl, rfl⟩

theorem paraPass_eq_assembleSpec :
    ∀ (ps : List Para) (tbs : List Textbox) (i : Nat),
    paraPass tbs ps i = assembleSpec ps (tbs.drop i) := by
  intro ps
  induction ps with
  | nil => intro tbs i; rfl
  | cons p ps ih =>
    intro tbs i
    simp only [paraPass, assembleSpec]
    by_cases ht : pyStrip p.text = ""
    · simp only [ht, if_pos rfl]
      exact ih tbs i
    · rw [if_neg ht, if_neg ht]
      by_cases hq : mentionsQuery (pyStrip p.text) = true
      · rw [if_pos hq, if_pos hq]
        cases htb : tbs[i]? with
        | some tb =>
          obtain ⟨hlt, heq⟩ := List.getElem?_eq_some_iff.mp htb
          have hdrop : tbs.drop i = tb :: tbs.drop (i + 1) := by
            rw [List.drop_eq_getElem_cons hlt, heq]
          rw [hdrop, ih tbs (i + 1)]
        | none =>
          have hge : tbs.length ≤ i := List.getElem?_eq_none_iff.mp htb
          have hdrop : tbs.drop i = [] := List.drop_eq_nil_of_le hge
          rw [hdrop, ih tbs i, hdrop]
      · rw [if_neg hq, if_neg hq, ih tbs i]

/-- C3: the paragraph pass equals the spec's description of code-block
insertion — after each paragraph whose lowercased text contains
"following" together with "query" or "soql", the next unconsumed
extracted-and-detected code block (when one remains) is emitted as the
very next item; blocks are consumed at most once, in extraction order;
a trigger with no remaining block inserts nothing. -/
theorem c3_code_insertion : ∀ (ps : List Para) (tbs : List Textbox),
    paraPass tbs ps 0 = assembleSpec ps tbs := by
  intro ps tbs
  rw [paraPass_eq_assembleSpec ps tbs 0, List.drop_zero]

theorem classifyPara_not_table (p : Para) (t : String) :
    isTableItem (classifyPara p t) = false := by
  by_cases h1 : containsStr "title" (styleNameLower p) = true
  · simp [classifyPara, h1, isTableItem]
  · by_cases h2 : is_bullet_point p t = true
    · simp [classifyPara, h1, h2, isTableItem]
    · rcases h3 : is_section_header t (firstRunBold p) with - | k
      · simp [classifyPara, h1, h2, h3, isTableItem]
      · cases k <;> simp [classifyPara, h1, h2, h3, isTableItem]

theorem paraPass_no_table (tbs : List Textbox) :
    ∀ (ps : List Para) (i : Nat), ∀ item ∈ paraPass tbs ps i,
      isTableItem item = false := by
  intro ps
  induction ps with
  | nil => intro i item h; simp [paraPass] at h
  | cons p ps ih =>
    intro i item h
    rw [paraPass] at h
    by_cases ht : pyStrip p.text = ""
    · rw [if_pos ht] at h
      exact ih i item h
    · rw [if_neg ht] at h
      by_cases hq : mentionsQuery (pyStrip p.text) = true
      · rw [if_pos hq] at h
        cases htb : tbs[i]? with
        | some tb =>
          rw [htb] at h
          rcases List.mem_cons.mp h with rfl | h'
          · exact classifyPara_not_table p _
          · rcases List.mem_cons.mp h' with rfl | h''
            · rfl
            · exact ih (i + 1) item h''
        | none =>
          rw [htb] at h
          rcases List.mem_cons.mp h with rfl | h'
          · exact classifyPara_not_table p _
          · exact ih i item h'
      · rw [if_neg hq] at h
        rcases List.mem_cons.mp h with rfl | h'
        · exact classifyPara_not_table p _
        · exact ih i item h'

theorem processTables_eq_map (tables : List (List (List String))) :
    processTables tables =
      ((tables.map processTable).filter (fun td => !td.isEmpty)).map
        ContentItem.table := by
  induction tables with
  | nil => rfl
  | cons tb rest ih =>
    simp only [processTables, List.map_cons, List.filter_cons] at ih ⊢
    by_cases h : processTable tb = []
    · simp [List.filterMap_cons, h, List.isEmpty_iff, ih]
    · simp [List.filterMap_cons, h, List.isEmpty_iff, ih]

/-- C7: in the assembled output every `table` item comes after every
paragraph-derived item — the output splits as the paragraph pass (which
contains no table items) followed by the table pass (all table items),
and the table items preserve the input tables' relative order. -/
theorem c7_tables_after_paragraphs : ∀ (d : DocxFile),
    extract_content_from_docx d =
      paraPass (extract_textboxes_from_docx d.pkg).1 d.paragraphs 0 ++
        processTables d.tables ∧
    (∀ item ∈ paraPass (extract_textboxes_from_docx d.pkg).1 d.paragraphs 0,
      isTableItem item = false) ∧
    (∀ item ∈ processTables d.tables, isTableItem item = true) ∧
    processTables d.tables =
      ((d.tables.map processTable).filter (fun td => !td.isEmpty)).map
        ContentItem.table := by
  intro d
  refine ⟨rfl, ?_, ?_, processTables_eq_map d.tables⟩
  · exact paraPass_no_table _ d.paragraphs 0
  · intro item h
    rw [processTables_eq_map] at h
    simp only [List.mem_map] at h
    obtain ⟨td, -, rfl⟩ := h
    rfl

/-- Witness for C7 at a concrete document: the single table item of the
table pass is indeed a `table` item. -/
theorem c7_tables_after_paragraphs_witness :
    (ContentItem.table [["A"]] ∈ processTables [[["A"]]]) ∧
    isTableItem (ContentItem.table [["A"]]) = true :=
  ⟨by decide,
    (c7_tables_after_paragraphs ⟨DocxPkg.zipNoMain, [], [[["A"]]]⟩).2.2.1
      (ContentItem.table [["A"]]) (by decide)⟩

theorem classifyPara_payload (p : Para) (t : String) (ht : ¬ t = "") :
    payloadOkB (classifyPara p t) = true := by
  by_cases h1 : containsStr "title" (styleNameLower p) = true
  · simp [classifyPara, h1, payloadOkB, ht]
  · by_cases h2 : is_bullet_point p t = true
    · simp [classifyPara, h1, h2, payloadOkB]
    · rcases h3 : is_section_header t (firstRunBold p) with - | k
      · simp [classifyPara, h1, h2, h3, payloadOkB, ht]
      · cases k <;> simp [classifyPara, h1, h2, h3, payloadOkB, ht]

theorem extract_textboxes_lines_ne_nil (pkg : DocxPkg) :
    ∀ tb ∈ (extract_textboxes_from_docx pkg).1, tb.lines ≠ [] := by
  intro tb htb
  cases pkg with
  | notAZip => simp [extract_textboxes_from_docx] at htb
  | zipNoMain => simp [extract_textboxes_from_docx] at htb
  | badXml => simp [extract_textboxes_from_docx] at htb
  | parsed root =>
    simp only [extract_textboxes_from_docx, walkTextboxes,
      List.mem_filterMap] at htb
    obtain ⟨b, -, hb⟩ := htb
    by_cases hl : linesOfTxbx b = []
    · simp [hl] at hb
    · rw [if_neg hl] at hb
      by_cases hc : is_code_block (String.intercalate "\n" (linesOfTxbx b)) = true
      · rw [if_pos hc] at hb
        injection hb with hb'
        rw [← hb']
        exact hl
      · rw [if_neg hc] at hb
        exact absurd hb (by simp)

theorem paraPass_payload (tbs : List Textbox)
    (hl : ∀ tb ∈ tbs, tb.lines ≠ []) :
    ∀ (ps : List Para) (i : Nat), ∀ item ∈ paraPass tbs ps i,
      payloadOkB item = true := by
  intro ps
  induction ps with
  | nil => intro i item h; simp [paraPass] at h
  | cons p ps ih =>
    intro i item h
    rw [paraPass] at h
    by_cases ht : pyStrip p.text = ""
    · rw [if_pos ht] at h
      exact ih i item h
    · rw [if_neg ht] at h
      by_cases hq : mentionsQuery (pyStrip p.text) = true
      · rw [if_pos hq] at h
        cases htb : tbs[i]? with
        | some tb =>
          rw [htb] at h
          rcases List.mem_cons.mp h with rfl | h'
          · exact classifyPara_payload p _ ht
          · rcases List.mem_cons.mp h' with rfl | h''
            · obtain ⟨hlt, heq⟩ := List.getElem?_eq_some_iff.mp htb
              have hmem : tb ∈ tbs := heq ▸ List.getElem_mem hlt
              simp [mkCodeItem, payloadOkB, List.isEmpty_iff, hl tb hmem]
            · exact ih (i + 1) item h''
        | none =>
          rw [htb] at h
          rcases List.mem_cons.mp h with rfl | h'
          · exact classifyPara_payload p _ ht
          · exact ih i item h'
      · rw [if_neg hq] at h
        rcases List.mem_cons.mp h with rfl | h'
        · exact classifyPara_payload p _ ht
        · exact ih i item h'

theorem processTables_payload (tables : List (List (List String))) :
    ∀ item ∈ processTables tables, payloadOkB item = true := by
  intro item h
  simp only [processTables, List.mem_filterMap] at h
  obtain ⟨tb, -, hb⟩ := h
  by_cases hd : processTable tb = []
  · simp [hd] at hb
  · rw [if_neg hd] at hb
    injection hb with hb'
    rw [← hb']
    simp [payloadOkB, List.isEmpty_iff, hd]

/-- C1 (amended): every item of the assembled output satisfies the
payload invariant with bullets exempted — titles, headings and paragraphs
carry non-empty text, code blocks non-empty line lists, tables at least
one row; and a cleaned bullet text is empty exactly when the trimmed
paragraph text was a single glyph-class character followed only by
whitespace. -/
theorem c1_payload_invariant :
    (∀ (d : DocxFile), ∀ item ∈ extract_content_from_docx d,
      payloadOkB item = true) ∧
    (∀ t : String, cleanBulletText t = "" ↔
      t.toList = [] ∨ ∃ c rest, t.toList = c :: rest ∧ bulletGlyphClass c = true ∧
        ∀ x ∈ rest, isPySpace x = true) := by
  constructor
  · intro d item h
    rw [extract_content_from_docx] at h
    rcases List.mem_append.mp h with h' | h'
    · exact paraPass_payload _ (extract_textboxes_lines_ne_nil d.pkg)
        d.paragraphs 0 item h'
    · exact processTables_payload d.tables item h'
  · intro t
    rcases ht : t.toList with - | ⟨c, rest⟩
    · have hte : t = "" := by
        cases t with
        | mk data => simpa using congrArg String.mk ht
      simp [cleanBulletText, ht, hte]
    · simp only [cleanBulletText, ht]
      by_cases hg : bulletGlyphClass c = true
      · rw [if_pos hg]
        constructor
        · intro he
          right
          refine ⟨c, rest, rfl, hg, ?_⟩
          have hnil : rest.dropWhile isPySpace = [] := congrArg String.data he
          exact fun x hx => List.dropWhile_eq_nil_iff.mp hnil x hx
        · rintro (hnil | ⟨c', rest', heq, -, hall⟩)
          · exact absurd hnil (by simp)
          · injection heq with heq1 heq2
            subst heq2
            have : rest.dropWhile isPySpace = [] :=
              List.dropWhile_eq_nil_iff.mpr (fun x hx => hall x hx)
            rw [this]
      · rw [if_neg hg]
        constructor
        · intro he
          have hdata : t.data = c :: rest := ht
          exact absurd (congrArg String.data he) (by simp [hdata])
        · rintro (hnil | ⟨c', rest', heq, hg', -⟩)
          · exact absurd hnil (by simp)
          · injection heq with heq1 heq2
            subst heq1
            exact absurd hg' hg

/-- Counterexample for C1 as stated: a document whose single paragraph is
the text "-" yields a bullet item whose stored text is empty — the glyph
strip can empty a bullet's text, so an item with empty text is emitted. -/
theorem c1_counterexample :
    extract_content_from_docx ⟨DocxPkg.zipNoMain, [⟨"-", none, [], false⟩], []⟩ =
      [ContentItem.bullet ""] := by
  decide

/-- Witness for C1 at a concrete document: a paragraph item "Hello" is
produced and satisfies the payload invariant. -/
theorem c1_payload_invariant_witness :
    (ContentItem.paragraph "Hello" ∈ extract_content_from_docx
      ⟨DocxPkg.zipNoMain, [⟨"Hello", none, [], false⟩], []⟩) ∧
    payloadOkB (ContentItem.paragraph "Hello") = true :=
  ⟨by decide, c1_payload_invariant.1
    ⟨DocxPkg.zipNoMain, [⟨"Hello", none, [], false⟩], []⟩
    (ContentItem.paragraph "Hello") (by decide)⟩

end TechTorch
